import Mathlib

/-!
Verification of `case-sensitive-paths-webpack-plugin` (src/index.js).

Strings are modelled as `List Char`.  The Node `path` module functions the
plugin calls (`path.dirname`, `path.basename`, `path.parse`) are embedded
below following the POSIX implementations used on the platforms the plugin
targets in CI; only the `root`/`dir` fields of `parse` are modelled since the
plugin reads nothing else.  External Unicode primitives
(`String.prototype.normalize('NFC')`, `String.prototype.toLowerCase`) and the
host filesystem (`compiler.inputFileSystem.readdir`) are abstract parameters
collected in `Env`; a `readdir` failure is `none`.
-/

namespace CSPlugin

abbrev Str := List Char

/-- Environment of external collaborators of the plugin: the host
filesystem's `readdir` (`none` models the error callback), Unicode NFC
normalization, and Unicode lowercasing (`toLowerCase`). -/
structure Env where
  fs : Str → Option (List Str)
  norm : Str → Str
  lower : Str → Str

/-- Scan of Node's POSIX `path.dirname`: walk indices `p.length-1, …, 1`
looking for the last slash that already has a non-slash character to its
right (`matchedSlash` bookkeeping as in the JS loop); `none` models the JS
sentinel `end === -1`. -/
def dirnameLoop (p : Str) : Nat → Bool → Option Nat
  | 0, _ => none
  | i + 1, matchedSlash =>
    if p.getD (i + 1) ' ' = '/' then
      if matchedSlash then dirnameLoop p i matchedSlash else some (i + 1)
    else dirnameLoop p i false

/-- Node's POSIX `path.dirname` (`path.slice(0, end)` is `List.take`). -/
def jsDirname (p : Str) : Str :=
  if p = [] then ['.']
  else if p.headD ' ' = '/' then
    match dirnameLoop p (p.length - 1) true with
    | none => ['/']
    | some e => if e = 1 then ['/', '/'] else p.take e
  else
    match dirnameLoop p (p.length - 1) true with
    | none => ['.']
    | some e => p.take e

/-- Scan of Node's POSIX `path.basename` (without the `ext` argument):
returns the JS loop's final `(start, end)` pair, walking indices down to 0. -/
def basenameLoop (p : Str) : Nat → Bool → Option Nat → Nat × Option Nat
  | i, matchedSlash, e =>
    if p.getD i ' ' = '/' then
      if matchedSlash = false then (i + 1, e)
      else
        match i with
        | 0 => (0, e)
        | j + 1 => basenameLoop p j matchedSlash e
    else
      let m := if e = none then false else matchedSlash
      let e2 := if e = none then some (i + 1) else e
      match i with
      | 0 => (0, e2)
      | j + 1 => basenameLoop p j m e2

/-- Node's POSIX `path.basename` (`path.slice(start, end)`). -/
def jsBasename (p : Str) : Str :=
  if p = [] then []
  else
    match basenameLoop p (p.length - 1) true none with
    | (_, none) => []
    | (s, some e) => (p.take e).drop s

/-- The fields of Node's POSIX `path.parse` the plugin reads. -/
structure ParsedPath where
  root : Str
  dir : Str
deriving DecidableEq

/-- Scan of Node's POSIX `path.parse` computing `startPart` (the start of the
last path component); `lo` is the JS loop's lower bound `start` (1 for an
absolute path, 0 otherwise), `endSet` tracks `end !== -1`.  Returns 0 when
the loop finishes without a break, as in the JS code. -/
def parseLoop (p : Str) (lo : Nat) : Nat → Bool → Bool → Nat
  | i, matchedSlash, endSet =>
    if i < lo then 0
    else if p.getD i ' ' = '/' then
      if matchedSlash = false then i + 1
      else
        match i with
        | 0 => 0
        | j + 1 => parseLoop p lo j matchedSlash endSet
    else
      let m := if endSet then matchedSlash else false
      match i with
      | 0 => 0
      | j + 1 => parseLoop p lo j m true

/-- The `root` and `dir` fields of Node's POSIX `path.parse`. -/
def jsParse (p : Str) : ParsedPath :=
  if p = [] then ⟨[], []⟩
  else
    let isAbs := p.headD ' ' = '/'
    let lo := if isAbs then 1 else 0
    let sp := parseLoop p lo (p.length - 1) true false
    ⟨if isAbs then ['/'] else [],
     if sp > 0 then p.take (sp - 1) else if isAbs then ['/'] else []⟩

/-- Termination test of `fileExistsWithCase` (src/index.js:140-145):
`parsedPath.dir === parsedPath.root || dir === '.'` for `parsedPath =
path.parse(dir)`. -/
def stopCond (dir : Str) : Bool :=
  (jsParse dir).dir = (jsParse dir).root ∨ dir = ['.']

/-- Mutable state of a `CaseSensitivePathsPlugin` instance within one build
pass: `pathCache` (a map modelled as an association list where the most
recent binding shadows older ones), the key set of
`visitedPathMutexRecord`, and the `fsOperations` diagnostic counter. -/
structure PluginState where
  pathCache : List (Str × List Str)
  mutexDirs : List Str
  fsOperations : Nat
deriving DecidableEq

/-- Lookup in the association-list model of a JS `Map`. -/
def mapLookup (d : Str) : List (Str × List Str) → Option (List Str)
  | [] => none
  | (k, v) :: rest => if k = d then some v else mapLookup d rest

/-- The state built by the constructor / by `reset` (src/index.js:63-67):
fresh cache, cleared mutex record, zero filesystem reads. -/
def reset (_s : PluginState) : PluginState := ⟨[], [], 0⟩

def initState : PluginState := reset ⟨[], [], 0⟩

/-- The `done` hook handler (src/index.js:180-189): logs (not modelled) and
calls `reset`. -/
def onDone (s : PluginState) : PluginState := reset s

/-- Lines 73-75 of src/index.js: lazily create the per-directory mutex. -/
def ensureMutex (dir : Str) (s : PluginState) : PluginState :=
  if dir ∈ s.mutexDirs then s else { s with mutexDirs := dir :: s.mutexDirs }

/-- Sequential semantics of `getFilenamesInDir` (src/index.js:69-124): ensure
the mutex, check the cache, and on a miss re-check inside `runExclusive`
(sequentially the re-check sees the same cache) before counting one
filesystem read; a `readdir` error caches `[]`, success caches the
NFC-normalized names.  The interleaved execution of concurrent calls is
modelled separately by `CStep` below. -/
def getFilenamesInDir (env : Env) (dir : Str) (s : PluginState) :
    List Str × PluginState :=
  let s1 := ensureMutex dir s
  match mapLookup dir s1.pathCache with
  | some e => (e, s1)
  | none =>
    match mapLookup dir s1.pathCache with
    | some e => (e, s1)
    | none =>
      match env.fs dir with
      | none =>
        ([], { s1 with fsOperations := s1.fsOperations + 1,
                       pathCache := (dir, []) :: s1.pathCache })
      | some files =>
        (files.map env.norm,
         { s1 with fsOperations := s1.fsOperations + 1,
                   pathCache := (dir, files.map env.norm) :: s1.pathCache })

def backtick : Char := Char.ofNat 96

/-- The fallback sentinel `'!nonexistent'` (src/index.js:156). -/
def nonexistentStr : Str := "!nonexistent".toList

/-- The corrected-name value built on a case-insensitive hit
(src/index.js:160): the on-disk name wrapped in backticks, then a period. -/
def mismatchName (f : Str) : Str := backtick :: (f ++ [backtick, '.'])

/-- The `correctFilename` computation of src/index.js:154-163: the first
listing entry whose lowercasing equals the request's, else the sentinel. -/
def findCorrectFilename (env : Env) (filenames : List Str) (filename : Str) :
    Str :=
  match filenames.find? (fun f => env.lower f = env.lower filename) with
  | some f => mismatchName f
  | none => nonexistentStr

lemma dirnameLoop_le (p : Str) :
    ∀ i m e, dirnameLoop p i m = some e → e ≤ i := by
  intro i
  induction i with
  | zero => intro m e h; simp [dirnameLoop] at h
  | succ j ih =>
    intro m e h
    unfold dirnameLoop at h
    by_cases hc : p.getD (j + 1) ' ' = '/'
    · rw [if_pos hc] at h
      by_cases hm : m = true
      · rw [if_pos hm] at h
        exact Nat.le_succ_of_le (ih m e h)
      · rw [if_neg hm] at h
        exact Nat.le_of_eq (Option.some.inj h).symm
    · rw [if_neg hc] at h
      exact Nat.le_succ_of_le (ih false e h)

lemma jsDirname_length_lt (p : Str) (h : stopCond (jsDirname p) = false) :
    (jsDirname p).length < p.length := by
  by_cases hp : p = []
  · rw [hp] at h
    have hd : stopCond (jsDirname []) = true := by decide
    rw [hd] at h; cases h
  · have hlen : 1 ≤ p.length := by
      cases p with
      | nil => exact absurd rfl hp
      | cons a t => simp
    have htake : ∀ e, dirnameLoop p (p.length - 1) true = some e →
        (p.take e).length < p.length := by
      intro e he
      have h1 : e ≤ p.length - 1 := dirnameLoop_le p (p.length - 1) true e he
      have h2 : e < p.length := by omega
      simp [List.length_take]
      omega
    by_cases hr : (p.head?).getD ' ' = '/'
    · cases hcase : dirnameLoop p (p.length - 1) true with
      | none =>
        have hd : jsDirname p = ['/'] := by simp [jsDirname, hp, hr, hcase]
        rw [hd] at h
        have : stopCond ['/'] = true := by decide
        rw [this] at h; cases h
      | some e =>
        by_cases he : e = 1
        · have hd : jsDirname p = ['/', '/'] := by
            simp [jsDirname, hp, hr, hcase, he]
          rw [hd] at h
          have : stopCond ['/', '/'] = true := by decide
          rw [this] at h; cases h
        · have hd : jsDirname p = p.take e := by
            simp [jsDirname, hp, hr, hcase, he]
          rw [hd]
          exact htake e hcase
    · cases hcase : dirnameLoop p (p.length - 1) true with
      | none =>
        have hd : jsDirname p = ['.'] := by simp [jsDirname, hp, hr, hcase]
        rw [hd] at h
        have : stopCond ['.'] = true := by decide
        rw [this] at h; cases h
      | some e =>
        have hd : jsDirname p = p.take e := by simp [jsDirname, hp, hr, hcase]
        rw [hd]
        exact htake e hcase

/-- Embedding of `fileExistsWithCase` (src/index.js:129-175), with the cache
state threaded explicitly.  The first component is the value passed to the
callback: `none` for `callback()` (path confirmed), `some v` for
`callback(correctFilename)`; the recursive call propagates its callback
value unchanged (src/index.js:169-173).  The source calls
`getFilenamesInDir` once and uses its result twice; the function is pure
here, so the repeated applications below denote that single result. -/
def fileExistsWithCase (env : Env) (filepath : Str) (s : PluginState) :
    Option Str × PluginState :=
  if h : stopCond (jsDirname filepath) = true then (none, s)
  else
    if jsBasename filepath ∈ (getFilenamesInDir env (jsDirname filepath) s).1 then
      fileExistsWithCase env (jsDirname filepath)
        (getFilenamesInDir env (jsDirname filepath) s).2
    else
      (some (findCorrectFilename env
               (getFilenamesInDir env (jsDirname filepath) s).1
               (jsBasename filepath)),
       (getFilenamesInDir env (jsDirname filepath) s).2)
termination_by filepath.length
decreasing_by
  exact jsDirname_length_lt filepath (by simpa using h)

/-- Fuelled variant of `fileExistsWithCase` with the same body, returning
`none` when the recursion depth exceeds the fuel; used to express that the
recursive ascent always terminates. -/
def fecFuel (env : Env) : Nat → Str → PluginState → Option (Option Str × PluginState)
  | 0, _, _ => none
  | fuel + 1, filepath, s =>
    if stopCond (jsDirname filepath) = true then some (none, s)
    else
      if jsBasename filepath ∈ (getFilenamesInDir env (jsDirname filepath) s).1 then
        fecFuel env fuel (jsDirname filepath)
          (getFilenamesInDir env (jsDirname filepath) s).2
      else
        some (some (findCorrectFilename env
                      (getFilenamesInDir env (jsDirname filepath) s).1
                      (jsBasename filepath)),
              (getFilenamesInDir env (jsDirname filepath) s).2)

/-- Outcome of the `checkFile` closure (src/index.js:191-211): either the
`done(new Error(...))` rejection or the pass-through `done(null)` /
`done(null, data)` (the `data.createData` distinction only selects between
those two equivalent pass-through forms and is not modelled). -/
inductive CheckOutcome where
  | error (msg : Str)
  | ok
deriving DecidableEq

/-- The message of the error built at src/index.js:199-203. -/
def errMsg (pathName realName : Str) : Str :=
  "[CaseSensitivePathsPlugin] ".toList ++ [backtick] ++ pathName ++ [backtick]
    ++ " does not match the corresponding path on disk ".toList ++ realName

/-- Embedding of `checkFile` (src/index.js:191-211).  JS truthiness of
`realName` is modelled exactly: `undefined` (`none`) and the empty string
are falsy and pass through. -/
def checkFile (env : Env) (pathName : Str) (s : PluginState) :
    CheckOutcome × PluginState :=
  match fileExistsWithCase env pathName s with
  | (none, s1) => (CheckOutcome.ok, s1)
  | (some r, s1) =>
    if r = [] then (CheckOutcome.ok, s1)
    else if r = nonexistentStr then (CheckOutcome.ok, s1)
    else (CheckOutcome.error (errMsg pathName r), s1)

/-- `resourcePath.split('?')[0]` (src/index.js:215). -/
def splitQ (p : Str) : Str := p.takeWhile (fun c => c ≠ '?')

/-- `.replace('\u0000#', '#')` (src/index.js:217): JS `String.replace` with a
string pattern replaces only the first occurrence. -/
def replaceEsc : Str → Str
  | [] => []
  | c :: rest =>
    if c = '\x00' ∧ rest.headD ' ' = '#' then '#' :: rest.tail
    else c :: replaceEsc rest

/-- `cleanupPath` (src/index.js:213-217). -/
def cleanupPath (p : Str) : Str := replaceEsc (splitQ p)

/-- The path computed by `onAfterResolve` (src/index.js:219-222) before it is
handed to `checkFile`: cleanup, then NFC normalization. -/
def onAfterResolvePath (env : Env) (resource : Str) : Str :=
  env.norm (cleanupPath resource)

lemma ensureMutex_pathCache (dir : Str) (s : PluginState) :
    (ensureMutex dir s).pathCache = s.pathCache := by
  unfold ensureMutex; split <;> rfl

lemma ensureMutex_fsOperations (dir : Str) (s : PluginState) :
    (ensureMutex dir s).fsOperations = s.fsOperations := by
  unfold ensureMutex; split <;> rfl

lemma ensureMutex_mem (dir : Str) (s : PluginState) :
    dir ∈ (ensureMutex dir s).mutexDirs := by
  unfold ensureMutex
  by_cases h : dir ∈ s.mutexDirs
  · rw [if_pos h]; exact h
  · rw [if_neg h]; exact List.mem_cons_self dir s.mutexDirs

lemma ensureMutex_of_mem (dir : Str) (s : PluginState)
    (h : dir ∈ s.mutexDirs) : ensureMutex dir s = s := by
  unfold ensureMutex; rw [if_pos h]

lemma getFilenamesInDir_hit (env : Env) (dir : Str) (s : PluginState)
    (e : List Str) (h : mapLookup dir s.pathCache = some e) :
    getFilenamesInDir env dir s = (e, ensureMutex dir s) := by
  simp only [getFilenamesInDir, ensureMutex_pathCache, h]

lemma getFilenamesInDir_err (env : Env) (dir : Str) (s : PluginState)
    (h1 : mapLookup dir s.pathCache = none) (h2 : env.fs dir = none) :
    getFilenamesInDir env dir s =
      ([], { ensureMutex dir s with fsOperations := s.fsOperations + 1,
                                    pathCache := (dir, []) :: s.pathCache }) := by
  simp only [getFilenamesInDir, ensureMutex_pathCache, ensureMutex_fsOperations, h1, h2]

lemma getFilenamesInDir_read (env : Env) (dir : Str) (s : PluginState)
    (files : List Str)
    (h1 : mapLookup dir s.pathCache = none) (h2 : env.fs dir = some files) :
    getFilenamesInDir env dir s =
      (files.map env.norm,
       { ensureMutex dir s with fsOperations := s.fsOperations + 1,
                                pathCache := (dir, files.map env.norm) :: s.pathCache }) := by
  simp only [getFilenamesInDir, ensureMutex_pathCache, ensureMutex_fsOperations, h1, h2]

lemma gfid_mutex_mem (env : Env) (dir : Str) (s : PluginState) :
    dir ∈ ((getFilenamesInDir env dir s).2).mutexDirs := by
  cases hl : mapLookup dir s.pathCache with
  | some e =>
    rw [getFilenamesInDir_hit env dir s e hl]
    exact ensureMutex_mem dir s
  | none =>
    cases hf : env.fs dir with
    | none =>
      rw [getFilenamesInDir_err env dir s hl hf]
      exact ensureMutex_mem dir s
    | some files =>
      rw [getFilenamesInDir_read env dir s files hl hf]
      exact ensureMutex_mem dir s

/-- Claim C2: once a directory has a cache entry, every `getFilenamesInDir`
call for it within the pass returns that exact stored sequence, issues no
filesystem read, and leaves the cache untouched; moreover no call for any
directory ever invalidates or overwrites an existing entry. -/
theorem cache_hit_idempotent (env : Env) (dir d2 : Str) (s : PluginState)
    (e e2 : List Str)
    (h : mapLookup dir s.pathCache = some e)
    (h2 : mapLookup d2 s.pathCache = some e2) :
    (getFilenamesInDir env dir s).1 = e
    ∧ (getFilenamesInDir env dir s).2.fsOperations = s.fsOperations
    ∧ (getFilenamesInDir env dir s).2.pathCache = s.pathCache
    ∧ ∀ env3 d3,
        mapLookup d2 ((getFilenamesInDir env3 d3 s).2).pathCache = some e2 := by
  rw [getFilenamesInDir_hit env dir s e h]
  refine ⟨rfl, ensureMutex_fsOperations dir s, ensureMutex_pathCache dir s, ?_⟩
  intro env3 d3
  cases hl : mapLookup d3 s.pathCache with
  | some e3 =>
    rw [getFilenamesInDir_hit env3 d3 s e3 hl]
    rw [show ((e3, ensureMutex d3 s).2) = ensureMutex d3 s from rfl,
        ensureMutex_pathCache]
    exact h2
  | none =>
    have hne : ¬ d3 = d2 := by
      intro hEq; rw [hEq, h2] at hl; cases hl
    cases hf : env3.fs d3 with
    | none =>
      rw [getFilenamesInDir_err env3 d3 s hl hf]
      simp only [mapLookup, if_neg hne]
      exact h2
    | some files =>
      rw [getFilenamesInDir_read env3 d3 s files hl hf]
      simp only [mapLookup, if_neg hne]
      exact h2

/-- Claim C5: a failed `readdir` stores the empty sequence as the cache
entry and returns it, counts one filesystem operation, is never retried (a
second call is a cache hit returning the same state), is indistinguishable
from a legitimately empty directory, and makes a path depending on that
directory resolve to the nonexistent sentinel rather than an error of its
own. -/
theorem readdir_failure_empty (env env2 : Env) (dir p : Str) (s : PluginState)
    (h1 : env.fs dir = none) (h2 : env2.fs dir = some [])
    (h3 : mapLookup dir s.pathCache = none)
    (hd : jsDirname p = dir) (hstop : stopCond dir = false) :
    (getFilenamesInDir env dir s).1 = []
    ∧ mapLookup dir ((getFilenamesInDir env dir s).2).pathCache = some []
    ∧ ((getFilenamesInDir env dir s).2).fsOperations = s.fsOperations + 1
    ∧ getFilenamesInDir env dir ((getFilenamesInDir env dir s).2)
        = ([], (getFilenamesInDir env dir s).2)
    ∧ getFilenamesInDir env dir s = getFilenamesInDir env2 dir s
    ∧ (fileExistsWithCase env p s).1 = some nonexistentStr := by
  have herr := getFilenamesInDir_err env dir s h3 h1
  refine ⟨by rw [herr], by rw [herr]; simp [mapLookup], by rw [herr], ?_, ?_, ?_⟩
  · have hlt : mapLookup dir ((getFilenamesInDir env dir s).2).pathCache
        = some [] := by rw [herr]; simp [mapLookup]
    have hmem : dir ∈ ((getFilenamesInDir env dir s).2).mutexDirs :=
      gfid_mutex_mem env dir s
    rw [getFilenamesInDir_hit env dir _ [] hlt,
        ensureMutex_of_mem dir _ hmem]
  · rw [herr, getFilenamesInDir_read env2 dir s [] h3 h2]
    simp
  · rw [fileExistsWithCase]
    have hs2 : ¬ stopCond (jsDirname p) = true := by simp [hd, hstop]
    rw [dif_neg hs2]
    have hl : (getFilenamesInDir env (jsDirname p) s).1 = [] := by
      rw [hd, herr]
    rw [if_neg (by rw [hl]; exact List.not_mem_nil _)]
    rw [hl]
    simp [findCorrectFilename, List.find?]

/-- Claim C7: the build-pass-complete handler discards the whole path cache
and all per-directory locks, zeroes the filesystem-read counter, and a
directory cached in the previous pass triggers a fresh filesystem read on
its next access. -/
theorem reset_clears_state (env : Env) (dir : Str) (s : PluginState)
    (e : List Str) (h : mapLookup dir s.pathCache = some e) :
    (onDone s).fsOperations = 0
    ∧ mapLookup dir (onDone s).pathCache = none
    ∧ (onDone s).mutexDirs = []
    ∧ (getFilenamesInDir env dir (onDone s)).2.fsOperations = 1 := by
  refine ⟨rfl, rfl, rfl, ?_⟩
  have h0 : mapLookup dir (onDone s).pathCache = none := rfl
  cases hf : env.fs dir with
  | none => rw [getFilenamesInDir_err env dir (onDone s) h0 hf]; rfl
  | some files =>
    rw [getFilenamesInDir_read env dir (onDone s) files h0 hf]; rfl

/-- Claim C8: when the dirname's parent equals its filesystem root, or the
dirname is the current-directory sentinel `.`, verification reports
Confirmed (`callback()`, i.e. `none`) immediately with the state — cache,
lock map and read counter — completely untouched. -/
theorem root_confirmed (env : Env) (p : Str) (s : PluginState)
    (h : (jsParse (jsDirname p)).dir = (jsParse (jsDirname p)).root
         ∨ jsDirname p = ['.']) :
    fileExistsWithCase env p s = (none, s) := by
  have hs : stopCond (jsDirname p) = true := decide_eq_true h
  rw [fileExistsWithCase, dif_pos hs]

lemma find?_first {α : Type} (pred : α → Bool) (L1 L2 : List α) (m : α)
    (h1 : ∀ f ∈ L1, pred f = false) (hm : pred m = true) :
    List.find? pred (L1 ++ m :: L2) = some m := by
  induction L1 with
  | nil => rw [List.nil_append, List.find?_cons_of_pos _ hm]
  | cons a t ih =>
    have ha : ¬ pred a = true := by
      rw [h1 a (List.mem_cons_self a t)]; simp
    rw [List.cons_append, List.find?_cons_of_neg _ ha]
    exact ih fun f hf => h1 f (List.mem_cons_of_mem a hf)

/-- Claim C3: if the request's basename is absent verbatim from the parent
listing but some entry matches it case-insensitively, the result is the
mismatch value carrying the first case-insensitive match in listing order
(here: `m`, preceded in the listing only by non-matching entries). -/
theorem mismatch_first_ci_match (env : Env) (p : Str) (s : PluginState)
    (L1 L2 : List Str) (m : Str)
    (hstop : stopCond (jsDirname p) = false)
    (hlist : (getFilenamesInDir env (jsDirname p) s).1 = L1 ++ m :: L2)
    (hnot : jsBasename p ∉ L1 ++ m :: L2)
    (hfirst : ∀ f ∈ L1, env.lower f ≠ env.lower (jsBasename p))
    (hm : env.lower m = env.lower (jsBasename p)) :
    (fileExistsWithCase env p s).1 = some (mismatchName m) := by
  rw [fileExistsWithCase, dif_neg (by simp [hstop]), hlist, if_neg hnot]
  have hfind : (L1 ++ m :: L2).find?
      (fun f => env.lower f = env.lower (jsBasename p)) = some m :=
    find?_first _ L1 L2 m
      (fun f hf => decide_eq_false (hfirst f hf)) (decide_eq_true hm)
  simp only [findCorrectFilename, hfind]

lemma sentinel_head : nonexistentStr = '!' :: "nonexistent".toList := by decide

lemma sentinel_ne_mismatch (m2 : Str) : nonexistentStr ≠ mismatchName m2 := by
  rw [sentinel_head]
  unfold mismatchName
  intro hEq
  injection hEq with h1 _
  exact absurd h1 (by decide)

/-- Claim C4: when no listing entry matches the basename even
case-insensitively, the result is the distinct nonexistent sentinel (never
equal to a mismatch value), and `checkFile` lets resolution proceed without
raising a case error. -/
theorem nonexistent_not_error (env : Env) (p : Str) (s : PluginState)
    (hstop : stopCond (jsDirname p) = false)
    (hci : ∀ f ∈ (getFilenamesInDir env (jsDirname p) s).1,
             env.lower f ≠ env.lower (jsBasename p)) :
    (fileExistsWithCase env p s).1 = some nonexistentStr
    ∧ (∀ m2, nonexistentStr ≠ mismatchName m2)
    ∧ (checkFile env p s).1 = CheckOutcome.ok := by
  have hmem : jsBasename p ∉ (getFilenamesInDir env (jsDirname p) s).1 :=
    fun hmem => hci _ hmem rfl
  have h1 : (fileExistsWithCase env p s).1 = some nonexistentStr := by
    rw [fileExistsWithCase, dif_neg (by simp [hstop]), if_neg hmem]
    have hfind : ((getFilenamesInDir env (jsDirname p) s).1).find?
        (fun f => env.lower f = env.lower (jsBasename p)) = none :=
      List.find?_eq_none.mpr fun f hf => by
        simp only [decide_eq_true_eq]; exact hci f hf
    simp only [findCorrectFilename, hfind]
  refine ⟨h1, sentinel_ne_mismatch, ?_⟩
  have hpair : fileExistsWithCase env p s
      = (some nonexistentStr, (fileExistsWithCase env p s).2) :=
    Prod.ext h1 rfl
  rw [checkFile, hpair]
  have hne : ¬ nonexistentStr = ([] : Str) := by decide
  simp [hne]

lemma fec_shape (env : Env) :
    ∀ n p s, p.length ≤ n →
      (fileExistsWithCase env p s).1 = none
      ∨ (fileExistsWithCase env p s).1 = some nonexistentStr
      ∨ ∃ m2, (fileExistsWithCase env p s).1 = some (mismatchName m2) := by
  intro n
  induction n with
  | zero =>
    intro p s hp
    have hnil : p = [] := List.length_eq_zero.mp (Nat.le_zero.mp hp)
    left
    rw [fileExistsWithCase, dif_pos (by rw [hnil]; decide)]
  | succ n ih =>
    intro p s hp
    by_cases hstop : stopCond (jsDirname p) = true
    · left; rw [fileExistsWithCase, dif_pos hstop]
    · by_cases hmem :
          jsBasename p ∈ (getFilenamesInDir env (jsDirname p) s).1
      · have hlt : (jsDirname p).length ≤ n := by
          have := jsDirname_length_lt p (by simpa using hstop)
          omega
        rw [fileExistsWithCase, dif_neg hstop, if_pos hmem]
        exact ih (jsDirname p) _ hlt
      · rw [fileExistsWithCase, dif_neg hstop, if_neg hmem]
        unfold findCorrectFilename
        cases hfind : ((getFilenamesInDir env (jsDirname p) s).1).find?
            (fun f => env.lower f = env.lower (jsBasename p)) with
        | none => right; left; simp [hfind]
        | some f => right; right; exact ⟨f, by simp [hfind]⟩

/-- Claim C9: every callback value of `fileExistsWithCase` is the sentinel
or a backtick-wrapped mismatch value; a mismatch value is never equal to
the sentinel (even when the real on-disk name is literally
`!nonexistent`), so `checkFile` classifies every mismatch as an error. -/
theorem mismatch_never_sentinel (env : Env) (p : Str) (s : PluginState)
    (r : Str) (h : (fileExistsWithCase env p s).1 = some r) :
    (r = nonexistentStr ∨ ∃ m2, r = mismatchName m2)
    ∧ ∀ m2, r = mismatchName m2 →
        r ≠ nonexistentStr
        ∧ (checkFile env p s).1 = CheckOutcome.error (errMsg p r) := by
  constructor
  · rcases fec_shape env p.length p s (Nat.le_refl _) with h0 | h0 | ⟨m2, h0⟩
    · rw [h0] at h; cases h
    · rw [h0] at h; exact Or.inl (Option.some.inj h).symm
    · rw [h0] at h; exact Or.inr ⟨m2, (Option.some.inj h).symm⟩
  · intro m2 hr
    have hne : r ≠ nonexistentStr := by
      rw [hr]; exact fun hEq => sentinel_ne_mismatch m2 hEq.symm
    refine ⟨hne, ?_⟩
    have hpair : fileExistsWithCase env p s
        = (some r, (fileExistsWithCase env p s).2) := Prod.ext h rfl
    rw [checkFile, hpair]
    have hnil : ¬ r = ([] : Str) := by
      rw [hr]; unfold mismatchName; simp
    simp only [if_neg hnil, if_neg hne]

lemma fecFuel_complete (env : Env) :
    ∀ fuel p s, p.length < fuel →
      fecFuel env fuel p s = some (fileExistsWithCase env p s) := by
  intro fuel
  induction fuel with
  | zero => intro p s hp; omega
  | succ n ih =>
    intro p s hp
    by_cases hstop : stopCond (jsDirname p) = true
    · rw [fecFuel, if_pos hstop, fileExistsWithCase, dif_pos hstop]
    · by_cases hmem :
          jsBasename p ∈ (getFilenamesInDir env (jsDirname p) s).1
      · have hlt : (jsDirname p).length < n := by
          have := jsDirname_length_lt p (by simpa using hstop)
          omega
        rw [fecFuel, if_neg hstop, if_pos hmem,
            fileExistsWithCase, dif_neg hstop, if_pos hmem]
        exact ih (jsDirname p) _ hlt
      · rw [fecFuel, if_neg hstop, if_neg hmem,
            fileExistsWithCase, dif_neg hstop, if_neg hmem]

/-- Claim C10: `fileExistsWithCase` terminates on every input path: the
fuelled variant of its recursion, run with fuel one more than the path
length, finishes (the recursive ascent through `path.dirname` strictly
shrinks the path whenever the stop condition has not yet been reached). -/
theorem fileExistsWithCase_total (env : Env) (p : Str) (s : PluginState) :
    ∃ fuel, fecFuel env fuel p s = some (fileExistsWithCase env p s) :=
  ⟨p.length + 1, fecFuel_complete env (p.length + 1) p s (Nat.lt_succ_self _)⟩

lemma splitQ_strip (a q : Str) (hq : '?' ∉ a) :
    splitQ (a ++ '?' :: q) = a := by
  induction a with
  | nil => simp [splitQ, List.takeWhile_cons]
  | cons c t ih =>
    have hc : ¬ c = '?' := fun hEq => hq (by rw [hEq]; exact List.mem_cons_self _ _)
    have ht : '?' ∉ t := fun hmem => hq (List.mem_cons_of_mem c hmem)
    have := ih ht
    simp only [splitQ, List.cons_append, List.takeWhile_cons] at this ⊢
    simp only [decide_eq_true_eq] at this ⊢
    rw [if_pos hc]
    rw [this]

lemma replaceEsc_strip (a e2 : Str) (hn : '\x00' ∉ a) :
    replaceEsc (a ++ '\x00' :: '#' :: e2) = a ++ '#' :: e2 := by
  induction a with
  | nil => simp [replaceEsc]
  | cons c t ih =>
    have hc : ¬ c = '\x00' :=
      fun hEq => hn (by rw [hEq]; exact List.mem_cons_self _ _)
    have ht : '\x00' ∉ t := fun hmem => hn (List.mem_cons_of_mem c hmem)
    simp [replaceEsc, hc, ih ht]

/-- Claim C6: a path is canonicalized before verification — everything
after the first `?` is stripped, the `\u0000#` escape is replaced by `#`,
and the result is normalized, exactly as every filename coming back from a
directory listing is normalized — so two names with the same normal form
compare equal in the listing-membership check instead of being treated as
distinct. -/
theorem cleanup_and_normalize (env : Env) (a q e2 dir f g : Str)
    (s : PluginState) (files : List Str)
    (hq : '?' ∉ a) (hn : '\x00' ∉ a)
    (hfs : env.fs dir = some files) (hc : mapLookup dir s.pathCache = none)
    (hf : f ∈ files) (hfg : env.norm f = env.norm g) :
    cleanupPath (a ++ '?' :: q) = replaceEsc a
    ∧ replaceEsc (a ++ '\x00' :: '#' :: e2) = a ++ '#' :: e2
    ∧ onAfterResolvePath env (a ++ '?' :: q) = env.norm (replaceEsc a)
    ∧ (getFilenamesInDir env dir s).1 = files.map env.norm
    ∧ env.norm g ∈ (getFilenamesInDir env dir s).1 := by
  have h1 : cleanupPath (a ++ '?' :: q) = replaceEsc a := by
    unfold cleanupPath
    rw [splitQ_strip a q hq]
  have h4 : (getFilenamesInDir env dir s).1 = files.map env.norm := by
    rw [getFilenamesInDir_read env dir s files hc hfs]
  refine ⟨h1, replaceEsc_strip a e2 hn, ?_, h4, ?_⟩
  · unfold onAfterResolvePath
    rw [h1]
  · rw [h4, ← hfg]
    exact List.mem_map_of_mem env.norm hf

/-- Progress of one `getFilenamesInDir(dir, cb)` caller for a fixed
directory, following src/index.js:69-124: initial cache check (line 77),
queueing on the per-directory mutex (line 88), holding it and re-checking
(line 89), awaiting `fs.readdir` (line 104), and completion with the value
passed to the callback. -/
inductive CallerPhase where
  | start
  | waiting
  | locked
  | reading
  | done (result : List Str)
deriving DecidableEq

/-- Shared state of `N` interleaved `getFilenamesInDir` callers for one
not-yet-cached directory: its `pathCache` slot, the holder of its mutex,
the `fsOperations` counter restricted to this directory, and each caller's
phase.  The single-threaded JS event loop interleaves the callers only at
their suspension points, which is exactly what the step relation below
allows. -/
structure CState (N : Nat) where
  cache : Option (List Str)
  lockHolder : Option (Fin N)
  fsReads : Nat
  phase : Fin N → CallerPhase

/-- Interleaving semantics of concurrent `getFilenamesInDir` calls on one
directory whose (already normalized, or empty-on-error) listing is `entry`:
a caller hitting the cache at line 77 finishes at once; on a miss it queues
for the mutex, re-checks the cache once exclusive (line 89), and only on a
second miss counts a read (line 103) and awaits `readdir`, whose callback
stores the cache entry and releases the mutex (lines 118-122). -/
inductive CStep (N : Nat) (entry : List Str) : CState N → CState N → Prop where
  | checkHit (s : CState N) (i : Fin N) (e : List Str) :
      s.phase i = CallerPhase.start → s.cache = some e →
      CStep N entry s
        { s with phase := Function.update s.phase i (CallerPhase.done e) }
  | checkMiss (s : CState N) (i : Fin N) :
      s.phase i = CallerPhase.start → s.cache = none →
      CStep N entry s
        { s with phase := Function.update s.phase i CallerPhase.waiting }
  | acquire (s : CState N) (i : Fin N) :
      s.phase i = CallerPhase.waiting → s.lockHolder = none →
      CStep N entry s
        { s with lockHolder := some i,
                 phase := Function.update s.phase i CallerPhase.locked }
  | recheckHit (s : CState N) (i : Fin N) (e : List Str) :
      s.phase i = CallerPhase.locked → s.cache = some e →
      CStep N entry s
        { s with lockHolder := none,
                 phase := Function.update s.phase i (CallerPhase.done e) }
  | recheckMiss (s : CState N) (i : Fin N) :
      s.phase i = CallerPhase.locked → s.cache = none →
      CStep N entry s
        { s with fsReads := s.fsReads + 1,
                 phase := Function.update s.phase i CallerPhase.reading }
  | fsDone (s : CState N) (i : Fin N) :
      s.phase i = CallerPhase.reading →
      CStep N entry s
        { s with cache := some entry, lockHolder := none,
                 phase := Function.update s.phase i (CallerPhase.done entry) }

/-- The state before any caller has run: empty cache slot, free mutex, no
reads performed. -/
def cInitState (N : Nat) : CState N :=
  ⟨none, none, 0, fun _ => CallerPhase.start⟩

/-- States reachable by interleaving the `N` callers from the initial
state. -/
inductive CReach (N : Nat) (entry : List Str) : CState N → Prop where
  | init : CReach N entry (cInitState N)
  | step {s t : CState N} :
      CReach N entry s → CStep N entry s t → CReach N entry t

/-- Inductive invariant of the interleaving: the cache slot only ever holds
the one read result, lock discipline ties `locked`/`reading` callers to the
mutex holder, the read counter is 0 before and 1 from the moment a read is
in flight or cached, and a finished caller has observed exactly the cached
entry. -/
def CInv (N : Nat) (entry : List Str) (s : CState N) : Prop :=
  (∀ e, s.cache = some e → e = entry)
  ∧ (∀ i, s.phase i = CallerPhase.locked ∨ s.phase i = CallerPhase.reading →
      s.lockHolder = some i)
  ∧ (s.cache.isSome = true → s.fsReads = 1)
  ∧ (∀ i, s.phase i = CallerPhase.reading → s.fsReads = 1)
  ∧ (s.cache = none → (∀ i, s.phase i ≠ CallerPhase.reading) → s.fsReads = 0)
  ∧ (∀ i r, s.phase i = CallerPhase.done r → r = entry ∧ s.cache = some entry)

lemma cinv_init (N : Nat) (entry : List Str) : CInv N entry (cInitState N) := by
  refine ⟨?_, ?_, ?_, ?_, ?_, ?_⟩ <;> intro h <;> simp_all [cInitState]

lemma cinv_step (N : Nat) (entry : List Str) (s t : CState N)
    (hinv : CInv N entry s) (hstep : CStep N entry s t) : CInv N entry t := by
  obtain ⟨h1, h2, h3, h4, h5, h6⟩ := hinv
  cases hstep with
  | checkHit i e hp hc =>
    unfold CInv
    dsimp only
    refine ⟨h1, ?_, h3, ?_, ?_, ?_⟩
    · intro j hj
      rw [Function.update_apply] at hj
      by_cases hij : j = i
      · rw [if_pos hij] at hj; rcases hj with hj | hj <;> cases hj
      · rw [if_neg hij] at hj; exact h2 j hj
    · intro j hj
      rw [Function.update_apply] at hj
      by_cases hij : j = i
      · rw [if_pos hij] at hj; cases hj
      · rw [if_neg hij] at hj; exact h4 j hj
    · intro hnone; rw [hc] at hnone; cases hnone
    · intro j r hj
      rw [Function.update_apply] at hj
      by_cases hij : j = i
      · rw [if_pos hij] at hj
        have he : e = entry := h1 e hc
        injection hj with hj
        exact ⟨hj.symm.trans he, by rw [hc, he]⟩
      · rw [if_neg hij] at hj; exact h6 j r hj
  | checkMiss i hp hc =>
    unfold CInv
    dsimp only
    refine ⟨h1, ?_, h3, ?_, ?_, ?_⟩
    · intro j hj
      rw [Function.update_apply] at hj
      by_cases hij : j = i
      · rw [if_pos hij] at hj; rcases hj with hj | hj <;> cases hj
      · rw [if_neg hij] at hj; exact h2 j hj
    · intro j hj
      rw [Function.update_apply] at hj
      by_cases hij : j = i
      · rw [if_pos hij] at hj; cases hj
      · rw [if_neg hij] at hj; exact h4 j hj
    · intro hnone hno
      refine h5 hnone fun j hj => ?_
      by_cases hij : j = i
      · rw [hij, hp] at hj; cases hj
      · exact hno j (by rw [Function.update_apply, if_neg hij]; exact hj)
    · intro j r hj
      rw [Function.update_apply] at hj
      by_cases hij : j = i
      · rw [if_pos hij] at hj; cases hj
      · rw [if_neg hij] at hj; exact h6 j r hj
  | acquire i hp hl =>
    unfold CInv
    dsimp only
    refine ⟨h1, ?_, h3, ?_, ?_, ?_⟩
    · intro j hj
      rw [Function.update_apply] at hj
      by_cases hij : j = i
      · rw [hij]
      · rw [if_neg hij] at hj
        have hcon := h2 j hj
        rw [hl] at hcon; cases hcon
    · intro j hj
      rw [Function.update_apply] at hj
      by_cases hij : j = i
      · rw [if_pos hij] at hj; cases hj
      · rw [if_neg hij] at hj; exact h4 j hj
    · intro hnone hno
      refine h5 hnone fun j hj => ?_
      by_cases hij : j = i
      · rw [hij, hp] at hj; cases hj
      · exact hno j (by rw [Function.update_apply, if_neg hij]; exact hj)
    · intro j r hj
      rw [Function.update_apply] at hj
      by_cases hij : j = i
      · rw [if_pos hij] at hj; cases hj
      · rw [if_neg hij] at hj; exact h6 j r hj
  | recheckHit i e hp hc =>
    unfold CInv
    dsimp only
    refine ⟨h1, ?_, h3, ?_, ?_, ?_⟩
    · intro j hj
      rw [Function.update_apply] at hj
      by_cases hij : j = i
      · rw [if_pos hij] at hj; rcases hj with hj | hj <;> cases hj
      · rw [if_neg hij] at hj
        have hjlock := h2 j hj
        have hilock := h2 i (Or.inl hp)
        rw [hilock] at hjlock
        injection hjlock with hji
        exact absurd hji.symm hij
    · intro j hj
      rw [Function.update_apply] at hj
      by_cases hij : j = i
      · rw [if_pos hij] at hj; cases hj
      · rw [if_neg hij] at hj; exact h4 j hj
    · intro hnone; rw [hc] at hnone; cases hnone
    · intro j r hj
      rw [Function.update_apply] at hj
      by_cases hij : j = i
      · rw [if_pos hij] at hj
        have he : e = entry := h1 e hc
        injection hj with hj
        exact ⟨hj.symm.trans he, by rw [hc, he]⟩
      · rw [if_neg hij] at hj; exact h6 j r hj
  | recheckMiss i hp hc =>
    have hzero : s.fsReads = 0 := by
      refine h5 hc fun j hj => ?_
      have hjlock := h2 j (Or.inr hj)
      have hilock := h2 i (Or.inl hp)
      rw [hilock] at hjlock
      injection hjlock with hji
      rw [← hji, hp] at hj; cases hj
    unfold CInv
    dsimp only
    refine ⟨h1, ?_, ?_, ?_, ?_, ?_⟩
    · intro j hj
      rw [Function.update_apply] at hj
      by_cases hij : j = i
      · rw [hij]; exact h2 i (Or.inl hp)
      · rw [if_neg hij] at hj; exact h2 j hj
    · intro hsome; rw [hc] at hsome; cases hsome
    · intro j hj; rw [hzero]
    · intro hnone hno
      exact absurd (by rw [Function.update_apply, if_pos rfl] :
        Function.update s.phase i CallerPhase.reading i = CallerPhase.reading)
        (hno i)
    · intro j r hj
      rw [Function.update_apply] at hj
      by_cases hij : j = i
      · rw [if_pos hij] at hj; cases hj
      · rw [if_neg hij] at hj
        have hcon := (h6 j r hj).2
        rw [hc] at hcon; cases hcon
  | fsDone i hp =>
    unfold CInv
    dsimp only
    refine ⟨?_, ?_, ?_, ?_, ?_, ?_⟩
    · intro e he; injection he with he; exact he.symm
    · intro j hj
      rw [Function.update_apply] at hj
      by_cases hij : j = i
      · rw [if_pos hij] at hj; rcases hj with hj | hj <;> cases hj
      · rw [if_neg hij] at hj
        have hjlock := h2 j hj
        have hilock := h2 i (Or.inr hp)
        rw [hilock] at hjlock
        injection hjlock with hji
        exact absurd hji.symm hij
    · intro _; exact h4 i hp
    · intro j hj
      rw [Function.update_apply] at hj
      by_cases hij : j = i
      · rw [if_pos hij] at hj; cases hj
      · rw [if_neg hij] at hj; exact h4 j hj
    · intro hnone; cases hnone
    · intro j r hj
      rw [Function.update_apply] at hj
      by_cases hij : j = i
      · rw [if_pos hij] at hj
        injection hj with hj
        exact ⟨hj.symm, rfl⟩
      · rw [if_neg hij] at hj
        exact ⟨(h6 j r hj).1, rfl⟩

lemma cinv_reachable (N : Nat) (entry : List Str) (s : CState N)
    (h : CReach N entry s) : CInv N entry s := by
  induction h with
  | init => exact cinv_init N entry
  | step _ hstep ih => exact cinv_step N entry _ _ ih hstep

/-- Claim C1: for any number of interleaved `getFilenamesInDir` callers on
one not-yet-cached directory, once every caller has finished exactly one
underlying `readdir` has been issued, and every caller observed the single
resulting cache entry. -/
theorem concurrent_single_read (N : Nat) (entry : List Str) (s : CState N)
    (hreach : CReach N entry s)
    (hdone : ∀ i, ∃ r, s.phase i = CallerPhase.done r)
    (hN : 0 < N) :
    s.fsReads = 1
    ∧ ∀ i r, s.phase i = CallerPhase.done r → r = entry := by
  obtain ⟨h1, h2, h3, h4, h5, h6⟩ := cinv_reachable N entry s hreach
  obtain ⟨r, hr⟩ := hdone ⟨0, hN⟩
  have hcache : s.cache = some entry := (h6 _ r hr).2
  refine ⟨h3 (by rw [hcache]; rfl), fun i r2 hr2 => (h6 i r2 hr2).1⟩

/-! Concrete fixtures on which the theorems above are instantiated. -/

def envA : Env := ⟨fun _ => none, id, id⟩

def dW : Str := "/d".toList

def xW : List Str := ["x.txt".toList]

def sW : PluginState := ⟨[(dW, xW)], [dW], 3⟩

def lowerW : Str → Str := List.map Char.toLower

def dirW3 : Str := "/r/s".toList

def envC : Env :=
  ⟨fun d => if d = dirW3 then some ["C.txt".toList] else none, id, lowerW⟩

def pW3 : Str := "/r/s/c.txt".toList

def mW3 : Str := "C.txt".toList

def pW4 : Str := "/r/s/zzz.txt".toList

def pW5 : Str := "/r/s/x".toList

def envE : Env := ⟨fun d => if d = dirW3 then some [] else none, id, id⟩

def aW : Str := "/app/src".toList

def qW : Str := "v=1".toList

def fragW : Str := "frag".toList

def fW : Str := "Xa".toList

def gW : Str := "Ya".toList

def normW : Str → Str := List.map (fun c => if c = 'X' then 'Y' else c)

def dirW6 : Str := "/n".toList

def envN : Env := ⟨fun d => if d = dirW6 then some [fW] else none, normW, id⟩

def pW8 : Str := "/a/x.txt".toList

def envS : Env :=
  ⟨fun d => if d = dirW3 then some [nonexistentStr] else none, id, lowerW⟩

def pW9 : Str := "/r/s/!NONEXISTENT".toList

theorem cache_hit_idempotent_witness :
    (getFilenamesInDir envA dW sW).1 = xW
    ∧ (getFilenamesInDir envA dW sW).2.fsOperations = sW.fsOperations := by
  have h := cache_hit_idempotent envA dW dW sW xW xW (by decide) (by decide)
  exact ⟨h.1, h.2.1⟩

theorem reset_clears_state_witness :
    (onDone sW).fsOperations = 0
    ∧ (getFilenamesInDir envA dW (onDone sW)).2.fsOperations = 1 := by
  have h := reset_clears_state envA dW sW xW (by decide)
  exact ⟨h.1, h.2.2.2⟩

theorem mismatch_first_ci_match_witness :
    (fileExistsWithCase envC pW3 initState).1 = some (mismatchName mW3) :=
  mismatch_first_ci_match envC pW3 initState [] [] mW3 (by decide) (by decide)
    (by decide) (by decide) (by decide)

theorem nonexistent_not_error_witness :
    (fileExistsWithCase envC pW4 initState).1 = some nonexistentStr
    ∧ (checkFile envC pW4 initState).1 = CheckOutcome.ok := by
  have h := nonexistent_not_error envC pW4 initState (by decide) (by decide)
  exact ⟨h.1, h.2.2⟩

theorem readdir_failure_empty_witness :
    (getFilenamesInDir envA dirW3 initState).1 = []
    ∧ (fileExistsWithCase envA pW5 initState).1 = some nonexistentStr := by
  have h := readdir_failure_empty envA envE dirW3 pW5 initState rfl (by decide)
    (by decide) (by decide) (by decide)
  exact ⟨h.1, h.2.2.2.2.2⟩

theorem cleanup_and_normalize_witness :
    cleanupPath (aW ++ '?' :: qW) = replaceEsc aW
    ∧ envN.norm gW ∈ (getFilenamesInDir envN dirW6 initState).1 := by
  have h := cleanup_and_normalize envN aW qW fragW dirW6 fW gW initState [fW]
    (by decide) (by decide) (by decide) (by decide) (by decide) (by decide)
  exact ⟨h.1, h.2.2.2.2⟩

theorem root_confirmed_witness :
    fileExistsWithCase envA pW8 initState = (none, initState) :=
  root_confirmed envA pW8 initState (by decide)

set_option maxHeartbeats 1000000 in
lemma fec_envS :
    (fileExistsWithCase envS pW9 initState).1
      = some (mismatchName nonexistentStr) := by
  have hstop : ¬ stopCond (jsDirname pW9) = true := by decide
  have hmem : jsBasename pW9 ∉ (getFilenamesInDir envS (jsDirname pW9) initState).1 := by
    decide
  rw [fileExistsWithCase, dif_neg hstop, if_neg hmem]
  decide

theorem mismatch_never_sentinel_witness :
    mismatchName nonexistentStr ≠ nonexistentStr
    ∧ (checkFile envS pW9 initState).1
        = CheckOutcome.error (errMsg pW9 (mismatchName nonexistentStr)) := by
  have h := mismatch_never_sentinel envS pW9 initState
    (mismatchName nonexistentStr) fec_envS
  exact ⟨(h.2 nonexistentStr rfl).1, (h.2 nonexistentStr rfl).2⟩

def entryW : List Str := ["f.txt".toList]

def cs0 : CState 2 := cInitState 2

def cs1 : CState 2 :=
  { cs0 with phase := Function.update cs0.phase 0 CallerPhase.waiting }

def cs2 : CState 2 :=
  { cs1 with phase := Function.update cs1.phase 1 CallerPhase.waiting }

def cs3 : CState 2 :=
  { cs2 with lockHolder := some 0,
             phase := Function.update cs2.phase 0 CallerPhase.locked }

def cs4 : CState 2 :=
  { cs3 with fsReads := cs3.fsReads + 1,
             phase := Function.update cs3.phase 0 CallerPhase.reading }

def cs5 : CState 2 :=
  { cs4 with cache := some entryW, lockHolder := none,
             phase := Function.update cs4.phase 0 (CallerPhase.done entryW) }

def cs6 : CState 2 :=
  { cs5 with lockHolder := some 1,
             phase := Function.update cs5.phase 1 CallerPhase.locked }

def cs7 : CState 2 :=
  { cs6 with lockHolder := none,
             phase := Function.update cs6.phase 1 (CallerPhase.done entryW) }

lemma creach_cs7 : CReach 2 entryW cs7 := by
  have r0 : CReach 2 entryW cs0 := CReach.init
  have r1 : CReach 2 entryW cs1 := r0.step (CStep.checkMiss cs0 0 rfl rfl)
  have r2 : CReach 2 entryW cs2 :=
    r1.step (CStep.checkMiss cs1 1 (by decide) rfl)
  have r3 : CReach 2 entryW cs3 :=
    r2.step (CStep.acquire cs2 0 (by decide) rfl)
  have r4 : CReach 2 entryW cs4 :=
    r3.step (CStep.recheckMiss cs3 0 (by decide) rfl)
  have r5 : CReach 2 entryW cs5 := r4.step (CStep.fsDone cs4 0 (by decide))
  have r6 : CReach 2 entryW cs6 :=
    r5.step (CStep.acquire cs5 1 (by decide) rfl)
  exact r6.step (CStep.recheckHit cs6 1 entryW (by decide) rfl)

theorem concurrent_single_read_witness : cs7.fsReads = 1 := by
  have hdone : ∀ i : Fin 2, ∃ r, cs7.phase i = CallerPhase.done r := by
    intro i
    fin_cases i
    · exact ⟨entryW, by decide⟩
    · exact ⟨entryW, by decide⟩
  exact (concurrent_single_read 2 entryW cs7 creach_cs7 hdone (by decide)).1

example : jsDirname "/a/b/c.txt".toList = "/a/b".toList := by decide
example : jsBasename "/a/b/c.txt".toList = "c.txt".toList := by decide
example : jsDirname "/a".toList = ['/'] := by decide
example : jsDirname "a".toList = ['.'] := by decide
example : jsDirname "a/".toList = ['.'] := by decide
example : jsBasename "a/".toList = ['a'] := by decide
example : jsDirname "//x".toList = "//".toList := by decide
example : stopCond "/a".toList = true := by decide
example : stopCond "/a/b".toList = false := by decide
example : stopCond ['.'] = true := by decide
example : stopCond "a".toList = true := by decide
example : stopCond "a/b".toList = false := by decide
example : jsParse "/a/b".toList = ⟨['/'], "/a".toList⟩ := by decide

end CSPlugin
